import Mathlib

/-!
Verification of the event-log reconstruction and replication-aggregation core
of the call-centre dashboard repository.

The shallow embedding below follows `src/vidigi_utils.py` (the function
`event_log_from_ciw_recs`) and `src/app.py` (`summary_results`, `rep_error`
and the `run_sim` enable/disable effect).

Modelling conventions:
* Timestamps are rationals (`ℚ`); the Python code manipulates them only by
  copying and comparing, never by float-specific arithmetic.
* A ciw trace record (`log` in the source) is a structure with the fields the
  function reads: `id_number`, `arrival_date`, `service_start_date`,
  `service_end_date`, `server_id`, `exit_date`.  `exit_date` is an
  `Option ℚ`: per the data model it is present only on an entity's final
  record, and reading a missing field is a hard failure, modelled by
  `Except.error attrErrorMsg`.
* Python's `node_name_list[i]` raises `IndexError` when `i` is out of range;
  this is modelled by `List.get?` with `Except.error indexErrorMsg` on `none`.
* Python's `list(set(...))` has unspecified iteration order; it is modelled by
  `List.dedup`, which is sound for every property below (all of them are
  insensitive to the relative order of distinct entities' blocks).
* The final `pd.DataFrame(event_logs)` wrapper is modelled as the list of
  emitted rows itself.
-/

/-- One ciw trace record, with exactly the fields `event_log_from_ciw_recs`
reads (src/vidigi_utils.py).  `exit_date` is optional: per the data model it
is present only on the entity's last record. -/
structure CiwRec where
  id_number : Nat
  arrival_date : ℚ
  service_start_date : ℚ
  service_end_date : ℚ
  server_id : Nat
  exit_date : Option ℚ
deriving DecidableEq, Repr

/-- One row of the event log built by `event_log_from_ciw_recs`:
the dict keys `patient`, `pathway`, `event_type`, `event`, `time`,
`resource_id` (absent on arrival/queue/departure rows, hence `Option`). -/
structure EventLogEntry where
  patient : Nat
  pathway : String
  event_type : String
  event : String
  time : ℚ
  resource_id : Option Nat
deriving DecidableEq, Repr

/-- The Python `IndexError` raised by `node_name_list[i]`. -/
def indexErrorMsg : String := "IndexError: list index out of range"

/-- The failure of reading `event.exit_date` when the field is absent. -/
def attrErrorMsg : String := "AttributeError: exit_date"

/-- The `'event': 'arrival'` row appended when `i == 0`
(src/vidigi_utils.py lines 30-36). -/
def arrivalRow (eid : Nat) (event : CiwRec) : EventLogEntry :=
  ⟨eid, "Model", "arrival_departure", "arrival", event.arrival_date, none⟩

/-- The `_wait_begins`, `_begins` and `_ends` rows appended on every
iteration (src/vidigi_utils.py lines 38-63). -/
def nodeRows (eid : Nat) (node : String) (event : CiwRec) : List EventLogEntry :=
  [⟨eid, "Model", "queue", node ++ "_wait_begins", event.arrival_date, none⟩,
   ⟨eid, "Model", "resource_use", node ++ "_begins", event.service_start_date,
      some event.server_id⟩,
   ⟨eid, "Model", "resource_use", node ++ "_ends", event.service_end_date,
      some event.server_id⟩]

/-- The `'event': 'depart'` row appended when `i == total_steps - 1`
(src/vidigi_utils.py lines 66-73), at the record's `exit_date`. -/
def departRow (eid : Nat) (t : ℚ) : EventLogEntry :=
  ⟨eid, "Model", "arrival_departure", "depart", t, none⟩

/-- The row emitted when `i == 0`: the arrival row (src line 29-36); the
emission is empty on every later iteration. -/
def arrivalPart (eid : Nat) (i : Nat) (event : CiwRec) : List EventLogEntry :=
  if i = 0 then [arrivalRow eid event] else []

/-- The body of the inner loop `for i, event in enumerate(entity_tuples)` of
`event_log_from_ciw_recs` (src/vidigi_utils.py lines 28-73), processing the
remaining `entity_tuples` from position `i` on.  In source order each
iteration emits: the arrival row (when `i == 0`), the `_wait_begins` row, the
`_begins` row, the `_ends` row, and the depart row (when
`i == total_steps - 1`, read off `event.exit_date`). -/
def entity_events (eid : Nat) (names : List String) (total : Nat) :
    Nat → List CiwRec → Except String (List EventLogEntry)
  | _, [] => Except.ok []
  | i, event :: rest =>
    match names.get? i with
    | none => Except.error indexErrorMsg
    | some node =>
      if i = total - 1 then
        match event.exit_date with
        | none => Except.error attrErrorMsg
        | some t =>
          Except.map
            (fun evs => arrivalPart eid i event ++ nodeRows eid node event ++
              [departRow eid t] ++ evs)
            (entity_events eid names total (i + 1) rest)
      else
        Except.map
          (fun evs => arrivalPart eid i event ++ nodeRows eid node event ++ evs)
          (entity_events eid names total (i + 1) rest)

/-- The per-entity record sequence
`entity_tuples = [log for log in ciw_recs_obj if log.id_number==entity_id]`
(src/vidigi_utils.py line 23). -/
def tuplesOf (recs : List CiwRec) (eid : Nat) : List CiwRec :=
  recs.filter (fun log => log.id_number == eid)

/-- One iteration of the outer loop `for entity_id in entity_ids`: recompute
`entity_tuples` and `total_steps` and append this entity's rows to the
accumulated `event_logs`. -/
def entityStep (recs : List CiwRec) (names : List String)
    (acc : List EventLogEntry) (eid : Nat) : Except String (List EventLogEntry) :=
  Except.map (fun evs => acc ++ evs)
    (entity_events eid names (tuplesOf recs eid).length 0 (tuplesOf recs eid))

/-- `event_log_from_ciw_recs(ciw_recs_obj, node_name_list)`
(src/vidigi_utils.py lines 3-75):
`entity_ids = list(set([log.id_number for log in ciw_recs_obj]))`, then the
outer loop over `entity_ids` appending each entity's event rows. -/
def event_log_from_ciw_recs (ciw_recs_obj : List CiwRec)
    (node_name_list : List String) : Except String (List EventLogEntry) :=
  ((ciw_recs_obj.map (fun log => log.id_number)).dedup).foldlM
    (entityStep ciw_recs_obj node_name_list) []

/-- First record of the spec's two-node scenario for entity B:
operator visit, arrival 0, service start 1, service end 3. -/
def recB1 : CiwRec :=
  ⟨2, 0, 1, 3, 1, none⟩

/-- Second record of the spec's two-node scenario for entity B:
nurse visit, arrival 3, service start 4, service end 10, exit 10. -/
def recB2 : CiwRec :=
  ⟨2, 3, 4, 10, 1, some 10⟩

/-- The data-model invariant on one entity's record sequence: the final
record carries an `exit_date` (spec section 3: "`exit_date`: present only on
the entity's last record"). -/
def lastHasExit (l : List CiwRec) : Prop :=
  ∀ r ∈ l.getLast?, (r.exit_date).isSome = true

/-- Per-record timestamp sanity (spec section 3):
`arrival_date ≤ service_start_date ≤ service_end_date`. -/
def recOk (r : CiwRec) : Prop :=
  r.arrival_date ≤ r.service_start_date ∧
    r.service_start_date ≤ r.service_end_date

/-- Hand-off ordering between consecutive records of one entity: timestamps
are non-decreasing across the sequence, so the next record's waiting starts
no earlier than the previous record's service ended. -/
def handoff (a b : CiwRec) : Prop :=
  a.service_end_date ≤ b.arrival_date

/-- Exit-timestamp sanity on the final record: `exit_date ≥ service_end_date`
(spec section 3). -/
def lastExitOk (l : List CiwRec) : Prop :=
  ∀ r ∈ l.getLast?, ∀ t ∈ r.exit_date, r.service_end_date ≤ t

/-- Comparison of two event-log rows by their `time` value. -/
def timeLE (a b : EventLogEntry) : Prop := a.time ≤ b.time

/-- The event log that `event_log_from_ciw_recs` produces on the two-record
scenario `[recB1, recB2]` with node names operator, nurse. -/
def scenarioBLog : List EventLogEntry :=
  [⟨2, "Model", "arrival_departure", "arrival", 0, none⟩,
   ⟨2, "Model", "queue", "operator_wait_begins", 0, none⟩,
   ⟨2, "Model", "resource_use", "operator_begins", 1, some 1⟩,
   ⟨2, "Model", "resource_use", "operator_ends", 3, some 1⟩,
   ⟨2, "Model", "queue", "nurse_wait_begins", 3, none⟩,
   ⟨2, "Model", "resource_use", "nurse_begins", 4, some 1⟩,
   ⟨2, "Model", "resource_use", "nurse_ends", 10, some 1⟩,
   ⟨2, "Model", "arrival_departure", "depart", 10, none⟩]

instance (r : CiwRec) : Decidable (recOk r) :=
  inferInstanceAs (Decidable (r.arrival_date ≤ r.service_start_date ∧
    r.service_start_date ≤ r.service_end_date))

instance (a b : CiwRec) : Decidable (handoff a b) :=
  inferInstanceAs (Decidable (a.service_end_date ≤ b.arrival_date))

instance (l : List CiwRec) : Decidable (lastExitOk l) :=
  inferInstanceAs
    (Decidable (∀ r ∈ l.getLast?, ∀ t ∈ r.exit_date, r.service_end_date ≤ t))

instance (l : List CiwRec) : Decidable (lastHasExit l) :=
  inferInstanceAs (Decidable (∀ r ∈ l.getLast?, (r.exit_date).isSome = true))

/-- Number of record examinations performed by the per-entity grouping
inside `event_log_from_ciw_recs`: the source evaluates
`entity_tuples = [log for log in ciw_recs_obj if log.id_number==entity_id]`
inside the loop `for entity_id in entity_ids` (src/vidigi_utils.py lines
22-23), so the predicate `log.id_number == entity_id` is evaluated once per
(entity id, record) pair — `|entity_ids| * |ciw_recs_obj|` examinations. -/
def partition_scan_count (recs : List CiwRec) : Nat :=
  ((recs.map (fun log => log.id_number)).dedup).length * recs.length

/-- A family of worst-case inputs for the grouping: `n` records with
pairwise distinct entity ids, each a complete one-node visit. -/
def distinctRecs (n : Nat) : List CiwRec :=
  (List.range n).map (fun j => ⟨j, 0, 0, 0, 0, some 0⟩)

/-- The `rep_error` renderer of `server` (src/app.py lines 526-532): the
error banner "Set number of replications to 1 or above" is emitted exactly
when `input.n_reps() < 1`. -/
def rep_error_shown (n_reps : Int) : Bool := n_reps < 1

/-- The reactive effect of `server` (src/app.py lines 643-652): the
Run Simulation button is disabled exactly when `input.n_reps() < 1` and
enabled otherwise. -/
def run_sim_disabled (n_reps : Int) : Bool := n_reps < 1

/-- The app's run path (src/app.py lines 617-641): `multiple_replications`
is reached only from the `run_sim` click handler, and the UI framework
delivers no click event for a disabled control, so the replication count
reaching the engine (`none` when the engine is not invoked) is: -/
def run_path_engine_call (n_reps : Int) (clicked : Bool) : Option Int :=
  if clicked && !run_sim_disabled n_reps then some n_reps else none

/-- Round half to even to an integer, as numpy rounding behaves on exactly
representable values. -/
def rint (q : ℚ) : ℤ :=
  if q - Int.floor q < 1 / 2 then Int.floor q
  else if (1 : ℚ) / 2 < q - Int.floor q then Int.floor q + 1
  else if Int.floor q % 2 = 0 then Int.floor q else Int.floor q + 1

/-- `DataFrame.round(2)` (src/app.py line 437): round a cell to two decimal
places. -/
def round2 (q : ℚ) : ℚ := (rint (q * 100) : ℚ) / 100

/-- Column mean, as pandas `describe()` computes it (NaN on an empty
column, encoded `none`). -/
def colMean (xs : List ℚ) : Option ℚ :=
  if xs.length = 0 then none else some (xs.sum / xs.length)

/-- The `std` cell of pandas `describe()`: the sample standard deviation
with the n−1 denominator, NaN (`none`) when `n ≤ 1`.  The standard
deviation is represented here by its square, the sample variance, since the
square root of a rational is irrational in general; this is faithful for
the properties at issue (whether the cell is NaN, never its magnitude). -/
def colVar (xs : List ℚ) : Option ℚ :=
  if xs.length ≤ 1 then none
  else
    some ((xs.map (fun x => (x - xs.sum / xs.length) ^ 2)).sum /
      ((xs.length : ℚ) - 1))

/-- Percentile (`p` in `[0,1]`) with linear interpolation between order
statistics, as pandas `describe()` computes quartiles. -/
def percentile (xs : List ℚ) (p : ℚ) : Option ℚ :=
  match List.insertionSort (fun a b => a ≤ b) xs with
  | [] => none
  | y :: ys =>
    let h : ℚ := p * (((y :: ys).length : ℚ) - 1)
    let lo : Nat := (Int.floor h).toNat
    let hi : Nat := (Int.ceil h).toNat
    some ((y :: ys).getD lo 0 +
      (h - (lo : ℚ)) * ((y :: ys).getD hi 0 - (y :: ys).getD lo 0))

/-- One column of `replications.describe()` (src/app.py line 437): the
eight cells count, mean, std, min, 25%, 50%, 75%, max for one KPI's
per-replication values. -/
def describe_col (xs : List ℚ) : List (String × Option ℚ) :=
  [("count", some (xs.length : ℚ)),
   ("mean", colMean xs),
   ("std", colVar xs),
   ("min", xs.min?),
   ("25%", percentile xs (1 / 4)),
   ("50%", percentile xs (1 / 2)),
   ("75%", percentile xs (3 / 4)),
   ("max", xs.max?)]

/-- One KPI row of the table built by `summary_results` (src/app.py lines
429-446): `describe()`, then `.round(2)`, then (after the transpose, which
turns the count column into a per-row cell) `drop('count', axis=1)`. -/
def summary_col (xs : List ℚ) : List (String × Option ℚ) :=
  ((describe_col xs).map (fun cell => (cell.1, cell.2.map round2))).filter
    (fun cell => cell.1 != "count")

/-- `summary_results(replications)` (src/app.py lines 429-446): the
transposed summary table, one row per KPI column of the replication
results, labelled by the metric name. -/
def summary_results (replications : List (String × List ℚ)) :
    List (String × List (String × Option ℚ)) :=
  replications.map (fun col => (col.1, summary_col col.2))

lemma entity_events_nil (eid : Nat) (names : List String) (total i : Nat) :
    entity_events eid names total i [] = Except.ok [] := rfl

lemma entity_events_cons_ok {eid : Nat} {names : List String} {total i : Nat}
    {event : CiwRec} {rest : List CiwRec} {evs : List EventLogEntry}
    (hok : entity_events eid names total i (event :: rest) = Except.ok evs) :
    ∃ node, names.get? i = some node ∧
      ∃ evs', entity_events eid names total (i + 1) rest = Except.ok evs' ∧
        ((i = total - 1 ∧ ∃ t, event.exit_date = some t ∧
            evs = arrivalPart eid i event ++ nodeRows eid node event ++
              [departRow eid t] ++ evs') ∨
         (i ≠ total - 1 ∧
            evs = arrivalPart eid i event ++ nodeRows eid node event ++ evs')) := by
  cases hnode : names.get? i with
  | none =>
    simp only [entity_events, hnode] at hok
    exact Except.noConfusion hok
  | some node =>
    by_cases hlast : i = total - 1
    · cases hexit : event.exit_date with
      | none =>
        simp only [entity_events, hnode, hexit, if_pos hlast] at hok
        exact Except.noConfusion hok
      | some t =>
        cases hrec : entity_events eid names total (i + 1) rest with
        | error msg =>
          simp only [entity_events, hnode, hexit, if_pos hlast, hrec, Except.map] at hok
          exact Except.noConfusion hok
        | ok evs' =>
          simp only [entity_events, hnode, hexit, if_pos hlast, hrec, Except.map,
            Except.ok.injEq] at hok
          exact ⟨node, rfl, evs', rfl, Or.inl ⟨hlast, t, rfl, hok.symm⟩⟩
    · cases hrec : entity_events eid names total (i + 1) rest with
      | error msg =>
        simp only [entity_events, hnode, if_neg hlast, hrec, Except.map] at hok
        exact Except.noConfusion hok
      | ok evs' =>
        simp only [entity_events, hnode, if_neg hlast, hrec, Except.map,
          Except.ok.injEq] at hok
        exact ⟨node, rfl, evs', rfl, Or.inr ⟨hlast, hok.symm⟩⟩

lemma entity_events_cons_error {eid : Nat} {names : List String} {total i : Nat}
    {event : CiwRec} {rest : List CiwRec} {msg : String}
    (herr : entity_events eid names total i (event :: rest) = Except.error msg) :
    (names.get? i = none ∧ msg = indexErrorMsg) ∨
    (i = total - 1 ∧ event.exit_date = none ∧ msg = attrErrorMsg) ∨
    (entity_events eid names total (i + 1) rest = Except.error msg) := by
  cases hnode : names.get? i with
  | none =>
    simp only [entity_events, hnode, Except.error.injEq] at herr
    exact Or.inl ⟨rfl, herr.symm⟩
  | some node =>
    by_cases hlast : i = total - 1
    · cases hexit : event.exit_date with
      | none =>
        simp only [entity_events, hnode, hexit, if_pos hlast, Except.error.injEq] at herr
        exact Or.inr (Or.inl ⟨hlast, rfl, herr.symm⟩)
      | some t =>
        cases hrec : entity_events eid names total (i + 1) rest with
        | error msg' =>
          simp only [entity_events, hnode, hexit, if_pos hlast, hrec, Except.map,
            Except.error.injEq] at herr
          exact Or.inr (Or.inr (by rw [herr]))
        | ok evs' =>
          simp only [entity_events, hnode, hexit, if_pos hlast, hrec, Except.map] at herr
          exact Except.noConfusion herr
    · cases hrec : entity_events eid names total (i + 1) rest with
      | error msg' =>
        simp only [entity_events, hnode, if_neg hlast, hrec, Except.map,
          Except.error.injEq] at herr
        exact Or.inr (Or.inr (by rw [herr]))
      | ok evs' =>
        simp only [entity_events, hnode, if_neg hlast, hrec, Except.map] at herr
        exact Except.noConfusion herr

lemma arrivalPart_patient {eid i : Nat} {event : CiwRec} {e : EventLogEntry}
    (he : e ∈ arrivalPart eid i event) : e.patient = eid := by
  unfold arrivalPart at he
  split at he
  · rw [List.mem_singleton] at he; subst he; rfl
  · simp at he

lemma nodeRows_patient {eid : Nat} {node : String} {event : CiwRec} {e : EventLogEntry}
    (he : e ∈ nodeRows eid node event) : e.patient = eid := by
  simp only [nodeRows, List.mem_cons, List.not_mem_nil, or_false] at he
  rcases he with he | he | he <;> subst he <;> rfl

lemma entity_events_patient (eid : Nat) (names : List String) (total : Nat) :
    ∀ (tuples : List CiwRec) (i : Nat) (evs : List EventLogEntry),
      entity_events eid names total i tuples = Except.ok evs →
      ∀ e ∈ evs, e.patient = eid := by
  intro tuples
  induction tuples with
  | nil =>
    intro i evs hok e he
    rw [entity_events_nil] at hok
    injection hok with h
    subst h
    simp at he
  | cons event rest ih =>
    intro i evs hok e he
    obtain ⟨node, hnode, evs', hrec, hcase⟩ := entity_events_cons_ok hok
    rcases hcase with ⟨hlast, t, hexit, hevs⟩ | ⟨hlast, hevs⟩ <;> subst hevs <;>
      simp only [List.append_assoc, List.mem_append] at he
    · rcases he with he | he | he | he
      · exact arrivalPart_patient he
      · exact nodeRows_patient he
      · rw [List.mem_singleton] at he; subst he; rfl
      · exact ih (i + 1) evs' hrec e he
    · rcases he with he | he | he
      · exact arrivalPart_patient he
      · exact nodeRows_patient he
      · exact ih (i + 1) evs' hrec e he

lemma entity_events_length_pos (eid : Nat) (names : List String) (total : Nat) :
    ∀ (tuples : List CiwRec) (i : Nat) (evs : List EventLogEntry),
      i + tuples.length = total → 0 < i → tuples ≠ [] →
      entity_events eid names total i tuples = Except.ok evs →
      evs.length = 3 * tuples.length + 1 := by
  intro tuples
  induction tuples with
  | nil => intro i evs _ _ hne _; exact absurd rfl hne
  | cons event rest ih =>
    intro i evs hinv hi _ hok
    obtain ⟨node, hnode, evs', hrec, hcase⟩ := entity_events_cons_ok hok
    have hizero : i ≠ 0 := Nat.pos_iff_ne_zero.mp hi
    rcases hcase with ⟨hlast, t, hexit, hevs⟩ | ⟨hlast, hevs⟩
    · have hrl : rest.length = 0 := by
        simp only [List.length_cons] at hinv; omega
      have hrest : rest = [] := List.length_eq_zero.mp hrl
      subst hrest
      rw [entity_events_nil] at hrec
      injection hrec with h
      subst h
      subst hevs
      simp [arrivalPart, if_neg hizero, nodeRows, departRow]
    · have hrne : rest ≠ [] := by
        intro h
        subst h
        simp only [List.length_cons, List.length_nil] at hinv
        omega
      have hlen' := ih (i + 1) evs'
        (by simp only [List.length_cons] at hinv ⊢; omega)
        (Nat.succ_pos i) hrne hrec
      subst hevs
      simp only [List.length_append, List.length_cons, arrivalPart, if_neg hizero,
        List.length_nil, nodeRows, hlen']
      simp [List.length_cons]
      omega

lemma entity_events_length_zero (eid : Nat) (names : List String) (total : Nat)
    (tuples : List CiwRec) (evs : List EventLogEntry)
    (hinv : tuples.length = total) (hne : tuples ≠ [])
    (hok : entity_events eid names total 0 tuples = Except.ok evs) :
    evs.length = 3 * tuples.length + 2 := by
  cases tuples with
  | nil => exact absurd rfl hne
  | cons event rest =>
    obtain ⟨node, hnode, evs', hrec, hcase⟩ := entity_events_cons_ok hok
    rcases hcase with ⟨hlast, t, hexit, hevs⟩ | ⟨hlast, hevs⟩
    · have hrl : rest.length = 0 := by
        simp only [List.length_cons] at hinv; omega
      have hrest : rest = [] := List.length_eq_zero.mp hrl
      subst hrest
      rw [entity_events_nil] at hrec
      injection hrec with h
      subst h
      subst hevs
      simp [arrivalPart, arrivalRow, nodeRows, departRow]
    · have hrne : rest ≠ [] := by
        intro h
        subst h
        simp only [List.length_cons, List.length_nil] at hinv
        omega
      have hlen' := entity_events_length_pos eid names total rest 1 evs'
        (by simp only [List.length_cons] at hinv ⊢; omega)
        Nat.one_pos hrne hrec
      subst hevs
      simp only [List.length_append, arrivalPart, eq_self_iff_true, if_true,
        List.length_singleton, nodeRows, List.length_cons, List.length_nil, hlen']
      omega

lemma entity_events_error_msg (eid : Nat) (names : List String) (total : Nat) :
    ∀ (tuples : List CiwRec) (i : Nat) (msg : String),
      entity_events eid names total i tuples = Except.error msg →
      msg = indexErrorMsg ∨ msg = attrErrorMsg := by
  intro tuples
  induction tuples with
  | nil => intro i msg h; rw [entity_events_nil] at h; exact Except.noConfusion h
  | cons event rest ih =>
    intro i msg h
    rcases entity_events_cons_error h with ⟨_, hm⟩ | ⟨_, _, hm⟩ | hrec
    · exact Or.inl hm
    · exact Or.inr hm
    · exact ih _ _ hrec

lemma entity_events_no_index_error (eid : Nat) (names : List String) (total : Nat) :
    ∀ (tuples : List CiwRec) (i : Nat), i + tuples.length ≤ names.length →
      entity_events eid names total i tuples ≠ Except.error indexErrorMsg := by
  intro tuples
  induction tuples with
  | nil => intro i _ h; rw [entity_events_nil] at h; exact Except.noConfusion h
  | cons event rest ih =>
    intro i hle h
    rcases entity_events_cons_error h with ⟨hnone, _⟩ | ⟨_, _, hm⟩ | hrec
    · have := List.get?_eq_none.mp hnone
      simp only [List.length_cons] at hle
      omega
    · exact absurd hm (by decide)
    · refine ih (i + 1) ?_ hrec
      simp only [List.length_cons] at hle
      omega

lemma entity_events_no_attr_error (eid : Nat) (names : List String) (total : Nat) :
    ∀ (tuples : List CiwRec) (i : Nat), i + tuples.length = total →
      lastHasExit tuples →
      entity_events eid names total i tuples ≠ Except.error attrErrorMsg := by
  intro tuples
  induction tuples with
  | nil => intro i _ _ h; rw [entity_events_nil] at h; exact Except.noConfusion h
  | cons event rest ih =>
    intro i hinv hexit h
    rcases entity_events_cons_error h with ⟨_, hm⟩ | ⟨hlast, hnone, _⟩ | hrec
    · exact absurd hm (by decide)
    · have hrl : rest.length = 0 := by
        simp only [List.length_cons] at hinv; omega
      have hrest : rest = [] := List.length_eq_zero.mp hrl
      subst hrest
      have := hexit event (by simp)
      rw [hnone] at this
      exact Bool.noConfusion this
    · cases rest with
      | nil => rw [entity_events_nil] at hrec; exact Except.noConfusion hrec
      | cons s rest' =>
        refine ih (i + 1) ?_ ?_ hrec
        · simp only [List.length_cons] at hinv ⊢; omega
        · intro r hr
          exact hexit r (by rw [List.getLast?_cons_cons]; exact hr)

lemma entity_events_short_not_ok (eid : Nat) (names : List String) (total : Nat) :
    ∀ (tuples : List CiwRec) (i : Nat), i ≤ names.length →
      names.length < i + tuples.length →
      ∀ evs, entity_events eid names total i tuples ≠ Except.ok evs := by
  intro tuples
  induction tuples with
  | nil =>
    intro i hle hlt evs h
    simp only [List.length_nil] at hlt
    omega
  | cons event rest ih =>
    intro i hle hlt evs h
    obtain ⟨node, hnode, evs', hrec, _⟩ := entity_events_cons_ok h
    have hi : i < names.length := by
      by_contra hni
      have hnone : names.get? i = none := List.get?_eq_none.mpr (by omega)
      rw [hnone] at hnode
      exact Option.noConfusion hnode
    refine ih (i + 1) (by omega) ?_ evs' hrec
    simp only [List.length_cons] at hlt
    omega

lemma entity_events_ok_of (eid : Nat) (names : List String) (tuples : List CiwRec)
    (hlen : tuples.length ≤ names.length) (hexit : lastHasExit tuples) :
    ∃ evs, entity_events eid names tuples.length 0 tuples = Except.ok evs := by
  cases h : entity_events eid names tuples.length 0 tuples with
  | ok evs => exact ⟨evs, rfl⟩
  | error msg =>
    rcases entity_events_error_msg eid names tuples.length tuples 0 msg h with hm | hm
    · subst hm
      exact absurd h
        (entity_events_no_index_error eid names tuples.length tuples 0 (by omega))
    · subst hm
      exact absurd h
        (entity_events_no_attr_error eid names tuples.length tuples 0 (by omega) hexit)

lemma entity_block_head_time (eid i : Nat) (event : CiwRec) (node : String)
    (tail : List EventLogEntry) (e : EventLogEntry)
    (he : (arrivalPart eid i event ++ nodeRows eid node event ++ tail).head? = some e) :
    e.time = event.arrival_date := by
  by_cases h0 : i = 0
  · simp only [arrivalPart, if_pos h0, arrivalRow, nodeRows, List.cons_append,
      List.singleton_append, List.head?_cons, Option.some.injEq] at he
    subst he; rfl
  · simp only [arrivalPart, if_neg h0, nodeRows, List.nil_append, List.cons_append,
      List.head?_cons, Option.some.injEq] at he
    subst he; rfl

lemma chain_block (eid i : Nat) (node : String) (event : CiwRec)
    (tail : List EventLogEntry) (hre : recOk event)
    (htail : List.Chain' timeLE tail)
    (hlink : ∀ y ∈ tail.head?, event.service_end_date ≤ y.time) :
    List.Chain' timeLE (arrivalPart eid i event ++ nodeRows eid node event ++ tail) := by
  have htl : List.Chain' timeLE
      (⟨eid, "Model", "resource_use", node ++ "_ends", event.service_end_date,
        some event.server_id⟩ :: tail) :=
    List.chain'_cons'.mpr ⟨hlink, htail⟩
  by_cases h0 : i = 0
  · rw [arrivalPart, if_pos h0, arrivalRow, nodeRows]
    simp only [List.cons_append, List.singleton_append, List.nil_append]
    exact List.chain'_cons.mpr ⟨le_refl _,
      List.chain'_cons.mpr ⟨hre.1, List.chain'_cons.mpr ⟨hre.2, htl⟩⟩⟩
  · rw [arrivalPart, if_neg h0, nodeRows]
    simp only [List.cons_append, List.nil_append]
    exact List.chain'_cons.mpr ⟨hre.1, List.chain'_cons.mpr ⟨hre.2, htl⟩⟩

lemma chain_block_last (eid i : Nat) (node : String) (event : CiwRec) (t : ℚ)
    (tail : List EventLogEntry) (hre : recOk event)
    (hend : event.service_end_date ≤ t)
    (htail : List.Chain' timeLE tail)
    (hlink : ∀ y ∈ tail.head?, t ≤ y.time) :
    List.Chain' timeLE (arrivalPart eid i event ++ nodeRows eid node event ++
      [departRow eid t] ++ tail) := by
  have hdp : List.Chain' timeLE (departRow eid t :: tail) :=
    List.chain'_cons'.mpr ⟨hlink, htail⟩
  have hta : List.Chain' timeLE
      (⟨eid, "Model", "resource_use", node ++ "_ends", event.service_end_date,
        some event.server_id⟩ :: departRow eid t :: tail) :=
    List.chain'_cons.mpr ⟨hend, hdp⟩
  by_cases h0 : i = 0
  · rw [arrivalPart, if_pos h0, arrivalRow, nodeRows]
    simp only [List.cons_append, List.singleton_append, List.nil_append,
      List.append_assoc]
    exact List.chain'_cons.mpr ⟨le_refl _,
      List.chain'_cons.mpr ⟨hre.1, List.chain'_cons.mpr ⟨hre.2, hta⟩⟩⟩
  · rw [arrivalPart, if_neg h0, nodeRows]
    simp only [List.cons_append, List.nil_append, List.append_assoc]
    exact List.chain'_cons.mpr ⟨hre.1, List.chain'_cons.mpr ⟨hre.2, hta⟩⟩

lemma entity_events_chain (eid : Nat) (names : List String) (total : Nat) :
    ∀ (tuples : List CiwRec) (i : Nat) (evs : List EventLogEntry),
      i + tuples.length = total →
      (∀ r ∈ tuples, recOk r) →
      List.Chain' handoff tuples →
      lastExitOk tuples →
      entity_events eid names total i tuples = Except.ok evs →
      List.Chain' timeLE evs ∧
        ∀ r ∈ tuples.head?, ∀ e ∈ evs.head?, e.time = r.arrival_date := by
  intro tuples
  induction tuples with
  | nil =>
    intro i evs _ _ _ _ hok
    rw [entity_events_nil] at hok
    injection hok with h
    subst h
    exact ⟨List.chain'_nil, by simp⟩
  | cons event rest ih =>
    intro i evs hinv hrok hchain hexit hok
    obtain ⟨node, hnode, evs', hrecur, hcase⟩ := entity_events_cons_ok hok
    have hre : recOk event := hrok event (List.mem_cons_self _ _)
    rcases hcase with ⟨hlast, t, hex, hevs⟩ | ⟨hlast, hevs⟩
    · -- final iteration: the invariant forces rest = []
      have hrl : rest = [] := List.length_eq_zero.mp
        (by simp only [List.length_cons] at hinv; omega)
      subst hrl
      rw [entity_events_nil] at hrecur
      injection hrecur with h
      subst h
      subst hevs
      have hend : event.service_end_date ≤ t := by
        have hlr := hexit event (by simp)
        exact hlr t (by rw [Option.mem_def, hex])
      constructor
      · exact chain_block_last eid i node event t [] hre hend List.chain'_nil
          (by intro y hy; simp at hy)
      · intro r hr e he
        rw [Option.mem_def, List.head?_cons, Option.some.injEq] at hr
        subst hr
        rw [Option.mem_def] at he
        rw [List.append_assoc (arrivalPart eid i event ++ nodeRows eid node event)] at he
        exact entity_block_head_time eid i event node _ e he
    · -- not the final iteration: the invariant forces rest ≠ []
      have hrne : rest ≠ [] := by
        intro h
        subst h
        simp only [List.length_cons, List.length_nil] at hinv
        omega
      obtain ⟨s, rest', rfl⟩ := List.exists_cons_of_ne_nil hrne
      have hh := List.chain'_cons.mp hchain
      have hch' := ih (i + 1) evs'
        (by simp only [List.length_cons] at hinv ⊢; omega)
        (fun r hr => hrok r (List.mem_cons_of_mem _ hr))
        hh.2
        (by
          intro r hr
          exact hexit r (by rw [List.getLast?_cons_cons]; exact hr))
        hrecur
      subst hevs
      constructor
      · refine chain_block eid i node event evs' hre hch'.1 ?_
        intro y hy
        have hy' : y.time = s.arrival_date :=
          hch'.2 s (by rw [Option.mem_def, List.head?_cons]) y hy
        rw [hy']
        exact hh.1
      · intro r hr e he
        rw [Option.mem_def, List.head?_cons, Option.some.injEq] at hr
        subst hr
        rw [Option.mem_def] at he
        exact entity_block_head_time eid i event node _ e he

lemma entityStep_ok {recs : List CiwRec} {names : List String}
    {acc : List EventLogEntry} {eid : Nat} {acc' : List EventLogEntry}
    (h : entityStep recs names acc eid = Except.ok acc') :
    ∃ evs, entity_events eid names (tuplesOf recs eid).length 0 (tuplesOf recs eid)
        = Except.ok evs ∧ acc' = acc ++ evs := by
  unfold entityStep at h
  cases hrec : entity_events eid names (tuplesOf recs eid).length 0 (tuplesOf recs eid) with
  | error msg =>
    rw [hrec] at h
    exact Except.noConfusion h
  | ok evs =>
    rw [hrec] at h
    simp only [Except.map, Except.ok.injEq] at h
    exact ⟨evs, rfl, h.symm⟩

lemma entityStep_error {recs : List CiwRec} {names : List String}
    {acc : List EventLogEntry} {eid : Nat} {msg : String}
    (h : entityStep recs names acc eid = Except.error msg) :
    entity_events eid names (tuplesOf recs eid).length 0 (tuplesOf recs eid)
      = Except.error msg := by
  unfold entityStep at h
  cases hrec : entity_events eid names (tuplesOf recs eid).length 0 (tuplesOf recs eid) with
  | error msg' =>
    rw [hrec] at h
    exact h
  | ok evs =>
    rw [hrec] at h
    exact Except.noConfusion h

lemma fold_ok_source (recs : List CiwRec) (names : List String) :
    ∀ (ids : List Nat) (acc log : List EventLogEntry),
      ids.foldlM (entityStep recs names) acc = Except.ok log →
      ∀ eid ∈ ids, ∃ evs,
        entity_events eid names (tuplesOf recs eid).length 0 (tuplesOf recs eid)
          = Except.ok evs := by
  intro ids
  induction ids with
  | nil => intro acc log _ eid hmem; exact absurd hmem (List.not_mem_nil eid)
  | cons hd tl ih =>
    intro acc log hfold eid hmem
    rw [List.foldlM_cons] at hfold
    cases hstep : entityStep recs names acc hd with
    | error msg =>
      rw [hstep] at hfold
      exact Except.noConfusion hfold
    | ok acc' =>
      rw [hstep] at hfold
      have hfold' : tl.foldlM (entityStep recs names) acc' = Except.ok log := hfold
      rcases List.mem_cons.mp hmem with rfl | hmem'
      · obtain ⟨evs, hevs, _⟩ := entityStep_ok hstep
        exact ⟨evs, hevs⟩
      · exact ih acc' log hfold' eid hmem'

lemma fold_error_source (recs : List CiwRec) (names : List String) :
    ∀ (ids : List Nat) (acc : List EventLogEntry) (msg : String),
      ids.foldlM (entityStep recs names) acc = Except.error msg →
      ∃ eid ∈ ids,
        entity_events eid names (tuplesOf recs eid).length 0 (tuplesOf recs eid)
          = Except.error msg := by
  intro ids
  induction ids with
  | nil => intro acc msg hfold; exact Except.noConfusion hfold
  | cons hd tl ih =>
    intro acc msg hfold
    rw [List.foldlM_cons] at hfold
    cases hstep : entityStep recs names acc hd with
    | error msg' =>
      rw [hstep] at hfold
      have h2 : (Except.error msg' : Except String (List EventLogEntry))
          = Except.error msg := hfold
      injection h2 with h
      subst h
      exact ⟨hd, List.mem_cons_self hd tl, entityStep_error hstep⟩
    | ok acc' =>
      rw [hstep] at hfold
      have hfold' : tl.foldlM (entityStep recs names) acc' = Except.error msg := hfold
      obtain ⟨eid, hmem, hevs⟩ := ih acc' msg hfold'
      exact ⟨eid, List.mem_cons_of_mem _ hmem, hevs⟩

lemma fold_all_ok (recs : List CiwRec) (names : List String) :
    ∀ (ids : List Nat) (acc : List EventLogEntry),
      (∀ eid ∈ ids, ∃ evs,
        entity_events eid names (tuplesOf recs eid).length 0 (tuplesOf recs eid)
          = Except.ok evs) →
      ∃ log, ids.foldlM (entityStep recs names) acc = Except.ok log := by
  intro ids
  induction ids with
  | nil => intro acc _; exact ⟨acc, rfl⟩
  | cons hd tl ih =>
    intro acc hall
    obtain ⟨evs, hevs⟩ := hall hd (List.mem_cons_self hd tl)
    have hstep : entityStep recs names acc hd = Except.ok (acc ++ evs) := by
      unfold entityStep
      rw [hevs]
      rfl
    obtain ⟨log, hlog⟩ := ih (acc ++ evs) (fun e he => hall e (List.mem_cons_of_mem _ he))
    refine ⟨log, ?_⟩
    rw [List.foldlM_cons, hstep]
    exact hlog

lemma fold_filter (recs : List CiwRec) (names : List String) (eid : Nat) :
    ∀ (ids : List Nat) (acc log : List EventLogEntry),
      ids.foldlM (entityStep recs names) acc = Except.ok log →
      (eid ∉ ids →
        log.filter (fun e => e.patient == eid)
          = acc.filter (fun e => e.patient == eid)) ∧
      (ids.Nodup → eid ∈ ids → ∃ evs,
        entity_events eid names (tuplesOf recs eid).length 0 (tuplesOf recs eid)
            = Except.ok evs ∧
        log.filter (fun e => e.patient == eid)
          = acc.filter (fun e => e.patient == eid) ++ evs) := by
  intro ids
  induction ids with
  | nil =>
    intro acc log hfold
    have h2 : (Except.ok acc : Except String (List EventLogEntry))
        = Except.ok log := hfold
    injection h2 with h
    subst h
    exact ⟨fun _ => rfl, fun _ hmem => absurd hmem (List.not_mem_nil eid)⟩
  | cons hd tl ih =>
    intro acc log hfold
    rw [List.foldlM_cons] at hfold
    cases hstep : entityStep recs names acc hd with
    | error msg =>
      rw [hstep] at hfold
      exact Except.noConfusion hfold
    | ok acc' =>
      rw [hstep] at hfold
      have hfold' : tl.foldlM (entityStep recs names) acc' = Except.ok log := hfold
      obtain ⟨evs0, hevs0, hacc'⟩ := entityStep_ok hstep
      subst hacc'
      have hpat := entity_events_patient hd names (tuplesOf recs hd).length
        (tuplesOf recs hd) 0 evs0 hevs0
      constructor
      · intro hnot
        have hne : eid ≠ hd := fun h => hnot (h ▸ List.mem_cons_self hd tl)
        have hnot' : eid ∉ tl := fun h => hnot (List.mem_cons_of_mem _ h)
        have h1 := (ih (acc ++ evs0) log hfold').1 hnot'
        rw [h1, List.filter_append]
        have h0 : evs0.filter (fun e => e.patient == eid) = [] := by
          refine List.filter_eq_nil_iff.mpr ?_
          intro e he
          rw [hpat e he]
          simp only [beq_iff_eq]
          exact fun h => hne h.symm
        rw [h0, List.append_nil]
      · intro hnd hmem
        rcases List.mem_cons.mp hmem with rfl | hmem'
        · have hnottl : eid ∉ tl := (List.nodup_cons.mp hnd).1
          have h1 := (ih (acc ++ evs0) log hfold').1 hnottl
          refine ⟨evs0, hevs0, ?_⟩
          rw [h1, List.filter_append]
          have h0 : evs0.filter (fun e => e.patient == eid) = evs0 := by
            refine List.filter_eq_self.mpr ?_
            intro e he
            rw [hpat e he]
            exact beq_self_eq_true eid
          rw [h0]
        · have hne : eid ≠ hd := by
            intro h
            subst h
            exact (List.nodup_cons.mp hnd).1 hmem'
          obtain ⟨evs, hevs, hfil⟩ :=
            (ih (acc ++ evs0) log hfold').2 (List.nodup_cons.mp hnd).2 hmem'
          refine ⟨evs, hevs, ?_⟩
          rw [hfil, List.filter_append]
          have h0 : evs0.filter (fun e => e.patient == eid) = [] := by
            refine List.filter_eq_nil_iff.mpr ?_
            intro e he
            rw [hpat e he]
            simp only [beq_iff_eq]
            exact fun h => hne h.symm
          rw [h0, List.append_nil]

lemma tuplesOf_ne_nil {recs : List CiwRec} {eid : Nat}
    (hmem : eid ∈ recs.map (fun r => r.id_number)) : tuplesOf recs eid ≠ [] := by
  obtain ⟨r, hr, hid⟩ := List.mem_map.mp hmem
  have hmem2 : r ∈ tuplesOf recs eid := by
    rw [tuplesOf, List.mem_filter]
    refine ⟨hr, ?_⟩
    rw [hid]
    exact beq_self_eq_true eid
  exact List.ne_nil_of_mem hmem2

/-- C1: for every entity that visits `k` nodes in the input trace records,
the event log returned by `event_log_from_ciw_recs` contains exactly
`1 + 3k + 1` entries for that entity: one arrival, three rows (queue
wait-begin, resource-use begin, resource-use end) per visited node, and one
departure. -/
theorem event_log_entries_per_entity (recs : List CiwRec) (names : List String)
    (log : List EventLogEntry) (eid : Nat)
    (hok : event_log_from_ciw_recs recs names = Except.ok log)
    (hmem : eid ∈ recs.map (fun r => r.id_number)) :
    (log.filter (fun e => e.patient == eid)).length
      = 1 + 3 * (tuplesOf recs eid).length + 1 := by
  rw [event_log_from_ciw_recs] at hok
  have hmem' : eid ∈ (recs.map (fun r => r.id_number)).dedup :=
    List.mem_dedup.mpr hmem
  obtain ⟨evs, hevs, hfil⟩ := (fold_filter recs names eid _ [] log hok).2
    (List.nodup_dedup _) hmem'
  rw [hfil]
  simp only [List.filter_nil, List.nil_append]
  have hlen := entity_events_length_zero eid names (tuplesOf recs eid).length
    (tuplesOf recs eid) evs rfl (tuplesOf_ne_nil hmem) hevs
  omega

/-- Witness for C1: on the concrete two-record scenario the block of entity
2 has 1 + 3·2 + 1 = 8 rows. -/
theorem event_log_entries_per_entity_witness :
    (scenarioBLog.filter (fun e => e.patient == 2)).length
      = 1 + 3 * (tuplesOf [recB1, recB2] 2).length + 1 :=
  event_log_entries_per_entity [recB1, recB2] ["operator", "nurse"]
    scenarioBLog 2 rfl (by decide)

/-- C4: on the single entity B with records
(operator: arrival 0, start 1, end 3) then (nurse: arrival 3, start 4,
end 10, exit 10) and node names [operator, nurse], the function produces
exactly arrival@0, operator_wait_begins@0, operator_begins@1,
operator_ends@3, nurse_wait_begins@3, nurse_begins@4, nurse_ends@10,
depart@10, in that order. -/
theorem two_node_scenario_log :
    event_log_from_ciw_recs [recB1, recB2] ["operator", "nurse"]
      = Except.ok scenarioBLog := rfl

/-- C5: the empty collection of trace records yields the empty event log,
not an error. -/
theorem empty_recs_empty_log (names : List String) :
    event_log_from_ciw_recs [] names = Except.ok [] := rfl

/-- C2: if some entity has more records than there are node labels, the
builder signals an error — an index-out-of-range error whenever the input
otherwise satisfies the exit-date data model — and never returns a
(truncated) event log; conversely, when every entity has at most
`names.length` records, no index-out-of-range error occurs. -/
theorem node_list_too_short_errors (recs : List CiwRec) (names : List String) :
    ((∃ eid ∈ recs.map (fun r => r.id_number),
        names.length < (tuplesOf recs eid).length) →
      (∃ msg, event_log_from_ciw_recs recs names = Except.error msg) ∧
      ((∀ eid ∈ recs.map (fun r => r.id_number), lastHasExit (tuplesOf recs eid)) →
        event_log_from_ciw_recs recs names = Except.error indexErrorMsg)) ∧
    ((∀ eid ∈ recs.map (fun r => r.id_number),
        (tuplesOf recs eid).length ≤ names.length) →
      event_log_from_ciw_recs recs names ≠ Except.error indexErrorMsg) := by
  constructor
  · intro ⟨eid, hmem, hshort⟩
    have herrex : ∃ msg, event_log_from_ciw_recs recs names = Except.error msg := by
      cases hres : event_log_from_ciw_recs recs names with
      | ok log =>
        rw [event_log_from_ciw_recs] at hres
        obtain ⟨evs, hevs⟩ := fold_ok_source recs names _ [] log hres eid
          (List.mem_dedup.mpr hmem)
        exact absurd hevs (entity_events_short_not_ok eid names _
          (tuplesOf recs eid) 0 (Nat.zero_le _) (by omega) evs)
      | error msg => exact ⟨msg, rfl⟩
    refine ⟨herrex, ?_⟩
    intro hall
    obtain ⟨msg, hmsg⟩ := herrex
    rw [event_log_from_ciw_recs] at hmsg
    obtain ⟨eid', hmem', hevs'⟩ := fold_error_source recs names _ [] msg hmsg
    rcases entity_events_error_msg eid' names _ (tuplesOf recs eid') 0 msg hevs'
        with rfl | rfl
    · rw [event_log_from_ciw_recs]
      exact hmsg
    · exact absurd hevs' (entity_events_no_attr_error eid' names _
        (tuplesOf recs eid') 0 (Nat.zero_add _)
        (hall eid' (List.mem_dedup.mp hmem')))
  · intro hall h
    rw [event_log_from_ciw_recs] at h
    obtain ⟨eid', hmem', hevs'⟩ := fold_error_source recs names _ [] indexErrorMsg h
    refine absurd hevs' (entity_events_no_index_error eid' names _
      (tuplesOf recs eid') 0 ?_)
    have := hall eid' (List.mem_dedup.mp hmem')
    omega

/-- C3: when every record is internally ordered, the entity's record
sequence hands off in non-decreasing time, and the final record's exit is no
earlier than its service end, the rows emitted for that entity have
non-decreasing time values in emission order. -/
theorem entity_block_times_monotone (recs : List CiwRec) (names : List String)
    (log : List EventLogEntry) (eid : Nat)
    (hok : event_log_from_ciw_recs recs names = Except.ok log)
    (hrok : ∀ r ∈ recs, recOk r)
    (hchain : List.Chain' handoff (tuplesOf recs eid))
    (hexit : lastExitOk (tuplesOf recs eid)) :
    List.Chain' timeLE (log.filter (fun e => e.patient == eid)) := by
  rw [event_log_from_ciw_recs] at hok
  by_cases hmem : eid ∈ (recs.map (fun r => r.id_number)).dedup
  · obtain ⟨evs, hevs, hfil⟩ := (fold_filter recs names eid _ [] log hok).2
      (List.nodup_dedup _) hmem
    rw [hfil]
    simp only [List.filter_nil, List.nil_append]
    exact (entity_events_chain eid names (tuplesOf recs eid).length
      (tuplesOf recs eid) 0 evs (Nat.zero_add _)
      (fun r hr => hrok r (List.mem_filter.mp hr).1) hchain hexit hevs).1
  · have hfil := (fold_filter recs names eid _ [] log hok).1 hmem
    rw [hfil]
    simp only [List.filter_nil]
    exact List.chain'_nil

/-- C10: when each entity's final record carries an exit date (the data
model), the builder never fails by reading a missing `exit_date` — in
particular it never reads `exit_date` off a non-final record — and, given
enough node labels, it completes successfully. -/
theorem exit_date_only_last (recs : List CiwRec) (names : List String)
    (hexit : ∀ eid ∈ recs.map (fun r => r.id_number),
      lastHasExit (tuplesOf recs eid)) :
    event_log_from_ciw_recs recs names ≠ Except.error attrErrorMsg ∧
    ((∀ eid ∈ recs.map (fun r => r.id_number),
        (tuplesOf recs eid).length ≤ names.length) →
      ∃ log, event_log_from_ciw_recs recs names = Except.ok log) := by
  constructor
  · intro h
    rw [event_log_from_ciw_recs] at h
    obtain ⟨eid, hmem, hevs⟩ := fold_error_source recs names _ [] attrErrorMsg h
    exact absurd hevs (entity_events_no_attr_error eid names _
      (tuplesOf recs eid) 0 (Nat.zero_add _)
      (hexit eid (List.mem_dedup.mp hmem)))
  · intro hall
    rw [event_log_from_ciw_recs]
    refine fold_all_ok recs names _ [] ?_
    intro eid hmem
    exact entity_events_ok_of eid names (tuplesOf recs eid)
      (hall eid (List.mem_dedup.mp hmem))
      (hexit eid (List.mem_dedup.mp hmem))

/-- Witness for C2: with one record for entity 7 and an empty node-name
list, the builder raises the index error. -/
theorem node_list_too_short_errors_witness :
    event_log_from_ciw_recs [⟨7, 0, 0, 0, 0, some 0⟩] []
      = Except.error indexErrorMsg :=
  ((node_list_too_short_errors [⟨7, 0, 0, 0, 0, some 0⟩] []).1
    (by decide)).2 (by decide)

/-- Witness for C3: entity 2's block in the two-record scenario is
time-ordered. -/
theorem entity_block_times_monotone_witness :
    List.Chain' timeLE (scenarioBLog.filter (fun e => e.patient == 2)) :=
  entity_block_times_monotone [recB1, recB2] ["operator", "nurse"]
    scenarioBLog 2 rfl (by decide)
    (List.chain'_cons.mpr ⟨by decide, List.Chain.nil⟩) (by decide)

/-- Witness for C10: on the two-record scenario (whose non-final record has
no exit date) the builder raises no missing-field failure, and with two
node labels it succeeds. -/
theorem exit_date_only_last_witness :
    event_log_from_ciw_recs [recB1, recB2] ["operator", "nurse"]
        ≠ Except.error attrErrorMsg ∧
    ((∀ eid ∈ ([recB1, recB2].map (fun r => r.id_number)),
        (tuplesOf [recB1, recB2] eid).length
          ≤ (["operator", "nurse"] : List String).length) →
      ∃ log, event_log_from_ciw_recs [recB1, recB2] ["operator", "nurse"]
        = Except.ok log) :=
  exit_date_only_last [recB1, recB2] ["operator", "nurse"] (by decide)

/-- Counterexample for C6: on a 3-record input (three distinct entities) the
grouping examines records 9 times — strictly more than the single pass over
the 3 records that the claim asserts. -/
theorem partition_not_single_pass_cx :
    partition_scan_count (distinctRecs 3) = 9 ∧
    (distinctRecs 3).length = 3 ∧
    ¬ partition_scan_count (distinctRecs 3) ≤ (distinctRecs 3).length := by
  decide

/-- C6 amended: the grouping is performed by one whole-collection filter per
distinct entity, so it costs `|entity_ids| * |records|` record examinations;
on `c + 1` single-record entities that is `(c+1)²`, which beats every linear
bound `c * |records|` — quadratic, not a single O(n) pass. -/
theorem partition_scan_quadratic (c : Nat) :
    partition_scan_count (distinctRecs (c + 1)) = (c + 1) * (c + 1) ∧
    c * (distinctRecs (c + 1)).length
      < partition_scan_count (distinctRecs (c + 1)) := by
  have hlen : (distinctRecs (c + 1)).length = c + 1 := by
    simp [distinctRecs]
  have hmap : (distinctRecs (c + 1)).map (fun log => log.id_number)
      = List.range (c + 1) := by
    simp [distinctRecs, List.map_map]
    exact List.map_id _
  have hcount : partition_scan_count (distinctRecs (c + 1))
      = (c + 1) * (c + 1) := by
    rw [partition_scan_count, hmap, List.dedup_eq_self.mpr (List.nodup_range _),
      List.length_range, hlen]
  refine ⟨hcount, ?_⟩
  rw [hcount, hlen]
  exact Nat.mul_lt_mul_of_pos_right (Nat.lt_succ_self c) (Nat.succ_pos c)

/-- C7: whenever the replication-count input is an integer below 1, the
error banner is shown, the run control is disabled, and the run path never
invokes the simulation engine. -/
theorem low_reps_blocks_run (n : Int) (clicked : Bool) (h : n < 1) :
    rep_error_shown n = true ∧ run_sim_disabled n = true ∧
      run_path_engine_call n clicked = none := by
  have hd : run_sim_disabled n = true := decide_eq_true h
  refine ⟨decide_eq_true h, hd, ?_⟩
  rw [run_path_engine_call, hd]
  simp

/-- Witness for C7 at replication count 0 with the button clicked. -/
theorem low_reps_blocks_run_witness :
    rep_error_shown 0 = true ∧ run_sim_disabled 0 = true ∧
      run_path_engine_call 0 true = none :=
  low_reps_blocks_run 0 true (by decide)

/-- Counterexample for C8: for the single-row input with value 1/3, the
mean cell of the summary is 0.33, not the row's value 1/3 — the claim
forgets the 2-decimal display rounding `summary_results` applies. -/
theorem single_row_mean_rounded_cx :
    (summary_col [(1 : ℚ) / 3]).lookup "mean" = some (some (33 / 100)) ∧
    ¬ (summary_col [(1 : ℚ) / 3]).lookup "mean" = some (some ((1 : ℚ) / 3)) := by
  have hlook : (summary_col [(1 : ℚ) / 3]).lookup "mean"
      = some (Option.map round2 (colMean [(1 : ℚ) / 3])) := rfl
  have hmean : colMean [(1 : ℚ) / 3] = some ((1 : ℚ) / 3) := by
    simp [colMean]
  have hfloor : Int.floor ((1 : ℚ) / 3 * 100) = 33 := by
    rw [Int.floor_eq_iff]
    norm_num
  have hrint : rint ((1 : ℚ) / 3 * 100) = 33 := by
    unfold rint
    rw [hfloor]
    norm_num
  have hround : round2 ((1 : ℚ) / 3) = 33 / 100 := by
    unfold round2
    rw [hrint]
    norm_num
  rw [hlook, hmean]
  simp only [Option.map_some', Option.some.injEq, hround]
  constructor
  · trivial
  · intro h
    norm_num at h

/-- C8 amended: for a single-row input the summary's mean, min and max all
equal the row's value rounded to two decimal places (the display rounding
applied by `summary_results`), and the sample standard deviation cell is
NaN (`none`) rather than an error. -/
theorem single_row_summary_stats (x : ℚ) :
    (summary_col [x]).lookup "mean" = some (some (round2 x)) ∧
    (summary_col [x]).lookup "std" = some none ∧
    (summary_col [x]).lookup "min" = some (some (round2 x)) ∧
    (summary_col [x]).lookup "max" = some (some (round2 x)) := by
  have hmean : colMean [x] = some x := by
    simp [colMean]
  constructor
  · show some (Option.map round2 (colMean [x])) = some (some (round2 x))
    rw [hmean]
    rfl
  · exact ⟨rfl, rfl, rfl⟩

lemma summary_col_labels (xs : List ℚ) :
    (summary_col xs).map Prod.fst
      = ["mean", "std", "min", "25%", "50%", "75%", "max"] := rfl

/-- C9: every KPI row of the summary table has exactly the columns mean,
std, min, 25%, 50%, 75%, max, and the replication count is not among
them. -/
theorem summary_columns (tbl : List (String × List ℚ)) (kpi : String)
    (row : List (String × Option ℚ))
    (_hne : ∀ col ∈ tbl, col.2 ≠ [])
    (hmem : (kpi, row) ∈ summary_results tbl) :
    row.map Prod.fst = ["mean", "std", "min", "25%", "50%", "75%", "max"] ∧
      "count" ∉ row.map Prod.fst := by
  obtain ⟨col, hcol, heq⟩ := List.mem_map.mp hmem
  cases heq
  refine ⟨summary_col_labels col.2, ?_⟩
  rw [summary_col_labels col.2]
  decide

/-- Witness for C9 on a one-KPI, three-replication table. -/
theorem summary_columns_witness :
    (summary_col [(10 : ℚ), 20, 30]).map Prod.fst
        = ["mean", "std", "min", "25%", "50%", "75%", "max"] ∧
      "count" ∉ (summary_col [(10 : ℚ), 20, 30]).map Prod.fst :=
  summary_columns [("wait", [(10 : ℚ), 20, 30])] "wait"
    (summary_col [(10 : ℚ), 20, 30]) (by simp) (by simp [summary_results])
